import Mathlib

/- Shallow embedding of the price-time-priority matching engine in `src/main.py`
(classes `AtomicInteger`, `Order`, `OrderBook` and the driver-facing entry
point `OrderBook.add_order`), together with proofs settling the claims about
its specification.

Modelling conventions:
* Python ints are `Int`.  The `AtomicInteger` class stores its value in a
  `ctypes.c_int`, which silently truncates to 32 signed bits; this is modelled
  by `wrap32`.  The "compare-and-swap" guard in `AtomicInteger.add`
  (`ctypes.c_int(current).value == current`) is always true because the value
  read from the cell is already in 32-bit range, so the loop body runs exactly
  once: `add` stores the wrapped sum and returns the exact (unwrapped) sum,
  exactly as the Python method does.
* The per-ticker linked lists of `Order` nodes are `List Order`; the two
  1024-slot arrays are total functions `Nat → List Order` (claims carry the
  valid-index precondition where relevant).
* The Sell branch of `match_orders` evaluates
  `min(new_order.quantity, buy_orders.quantity)` on two `AtomicInteger`
  objects, which have no ordering in Python 3: the call raises `TypeError`
  whenever a submitted Sell crosses the best resting Buy.  This is modelled by
  the `MatchResult.typeError` / `SubmitResult.raised` outcomes, which carry
  the book state at the raise (no mutation has happened at that point, the
  exception fires before the first loop body completes anything).
* Sequential semantics: the claims under scrutiny are about single-threaded
  runs, so the mutable cells are threaded by value.
-/

namespace StockTrading

/-- Truncation to a signed 32-bit integer, the effect of storing a Python int
into a `ctypes.c_int` field. -/
def wrap32 (v : Int) : Int :=
  (v + 2147483648) % 4294967296 - 2147483648

/-- The `AtomicInteger` class: a single mutable cell holding a `c_int`. -/
structure AtomicInteger where
  value : Int
deriving DecidableEq, Repr

/-- Constructor `AtomicInteger(value)`: stores through `ctypes.c_int`. -/
def AtomicInteger.init (v : Int) : AtomicInteger :=
  ⟨wrap32 v⟩

/-- Method `add(delta)`: the simulated compare-and-swap always succeeds, so
this is one read-modify-write.  The wrapped sum is stored, the exact Python
int sum is returned. -/
def AtomicInteger.add (a : AtomicInteger) (delta : Int) : AtomicInteger × Int :=
  (⟨wrap32 (a.value + delta)⟩, a.value + delta)

/-- Method `subtract(delta)`: `add(-delta)`. -/
def AtomicInteger.subtract (a : AtomicInteger) (delta : Int) : AtomicInteger × Int :=
  a.add (-delta)

/-- Method `get()`: the stored value. -/
def AtomicInteger.get (a : AtomicInteger) : Int :=
  a.value

/-- The two order sides (the `order_type` strings used by the program). -/
inductive Side where
  | Buy
  | Sell
deriving DecidableEq, Repr

/-- The side of the opposite book (resting orders a submission matches against). -/
def Side.opposite : Side → Side
  | Side.Buy => Side.Sell
  | Side.Sell => Side.Buy

/-- The `Order` class (the `next` pointer is represented by list structure). -/
structure Order where
  order_type : Side
  ticker : Nat
  quantity : AtomicInteger
  price : Int
deriving DecidableEq, Repr

/-- The order constructed at the top of `add_order`. -/
def mkOrder (s : Side) (t : Nat) (q p : Int) : Order :=
  { order_type := s, ticker := t, quantity := AtomicInteger.init q, price := p }

/-- An executed-trade record appended to `executed_trades`:
`(new_order.price, matched_quantity, new_order.ticker)`. -/
abbrev Trade := Int × Int × Nat

/-- The `OrderBook` state: one linked list per ticker and side. -/
structure OrderBook where
  buy_orders : Nat → List Order
  sell_orders : Nat → List Order

/-- A fresh `OrderBook()`: all 1024 slots hold `None`. -/
def OrderBook.empty : OrderBook :=
  { buy_orders := fun _ => [], sell_orders := fun _ => [] }

/-- The traversal part of `_insert_order`: `current` has been passed, advance
while the next node still has strictly better price than `new_order`, then
link `new_order` in after `current`. -/
def insert_loop (new_order current : Order) : List Order → List Order
  | [] => [current, new_order]
  | nxt :: rest =>
    if (new_order.order_type = Side.Buy ∧ new_order.price < nxt.price) ∨
        (new_order.order_type = Side.Sell ∧ nxt.price < new_order.price) then
      current :: insert_loop new_order nxt rest
    else
      current :: new_order :: nxt :: rest

/-- Method `_insert_order` restricted to the single list it rewires:
sorted insertion, with a same-priced new order placed at the head
(`head.price <= new_order.price` for Buy, `head.price >= new_order.price`
for Sell puts the new order first). -/
def insert_order (order_list : List Order) (new_order : Order) : List Order :=
  match order_list with
  | [] => [new_order]
  | head :: rest =>
    if (new_order.order_type = Side.Buy ∧ head.price ≤ new_order.price) ∨
        (new_order.order_type = Side.Sell ∧ new_order.price ≤ head.price) then
      new_order :: head :: rest
    else
      insert_loop new_order head rest

/-- The Buy-side `while` loop of `match_orders`, acting on the sell list at
`new_order.ticker`.  Each iteration appends
`(new_order.price, matched_quantity, new_order.ticker)` to the trades,
decrements both quantity cells, drops the head sell order when its `subtract`
returned `0`, and returns early when the incoming order's `subtract` returned
`0`.  Termination: every completing iteration either removes the head resting
order or returns (one of the two `subtract` results is `0` because the
matched quantity is the minimum of the two values). -/
def match_buy_loop (nprice : Int) (nticker : Nat) (nq : AtomicInteger)
    (sells : List Order) (acc : List Trade) : AtomicInteger × List Order × List Trade :=
  match sells with
  | [] => (nq, [], acc)
  | best :: rest =>
    if best.price ≤ nprice then
      if hb : (best.quantity.subtract (min nq.get best.quantity.get)).2 = 0 then
        if (nq.subtract (min nq.get best.quantity.get)).2 = 0 then
          ((nq.subtract (min nq.get best.quantity.get)).1, rest,
            acc ++ [(nprice, min nq.get best.quantity.get, nticker)])
        else
          match_buy_loop nprice nticker (nq.subtract (min nq.get best.quantity.get)).1 rest
            (acc ++ [(nprice, min nq.get best.quantity.get, nticker)])
      else
        if hn : (nq.subtract (min nq.get best.quantity.get)).2 = 0 then
          ((nq.subtract (min nq.get best.quantity.get)).1,
            { best with quantity := (best.quantity.subtract (min nq.get best.quantity.get)).1 } :: rest,
            acc ++ [(nprice, min nq.get best.quantity.get, nticker)])
        else
          match_buy_loop nprice nticker (nq.subtract (min nq.get best.quantity.get)).1
            ({ best with quantity := (best.quantity.subtract (min nq.get best.quantity.get)).1 } :: rest)
            (acc ++ [(nprice, min nq.get best.quantity.get, nticker)])
    else
      (nq, best :: rest, acc)
termination_by sells.length
decreasing_by
  · simp only [List.length_cons]
    omega
  · exfalso
    simp only [AtomicInteger.subtract, AtomicInteger.add, AtomicInteger.get] at hb hn
    omega

/-- Outcome of `match_orders`: either the engine finishes (updated book,
updated incoming-quantity cell, trades so far) or Python raises `TypeError`
(the book state at the raise is carried along). -/
inductive MatchResult where
  | ok (book : OrderBook) (new_quantity : AtomicInteger) (trades : List Trade)
  | typeError (book : OrderBook)

/-- Method `match_orders`.  The Buy branch runs the matching loop against the
sell list.  The Sell branch evaluates `min` on two `AtomicInteger` objects as
soon as the best resting Buy satisfies `buy_orders.price >= new_order.price`,
which raises `TypeError` before anything is mutated; with no crossing resting
Buy the loop body never runs. -/
def match_orders (book : OrderBook) (new_order : Order) : MatchResult :=
  match new_order.order_type with
  | Side.Buy =>
    let r := match_buy_loop new_order.price new_order.ticker new_order.quantity
        (book.sell_orders new_order.ticker) []
    MatchResult.ok
      { book with sell_orders := Function.update book.sell_orders new_order.ticker r.2.1 }
      r.1 r.2.2
  | Side.Sell =>
    match book.buy_orders new_order.ticker with
    | [] => MatchResult.ok book new_order.quantity []
    | best :: _ =>
      if new_order.price ≤ best.price then
        MatchResult.typeError book
      else
        MatchResult.ok book new_order.quantity []

/-- Outcome of one `add_order` call: normal return (trades for logging) or an
escaped exception; both carry the book state afterwards. -/
inductive SubmitResult where
  | ok (book : OrderBook) (trades : List Trade)
  | raised (book : OrderBook)

/-- The book state after a submission, whether or not it raised. -/
def SubmitResult.book : SubmitResult → OrderBook
  | SubmitResult.ok b _ => b
  | SubmitResult.raised b => b

/-- The trades returned by a submission (none observable when it raised). -/
def SubmitResult.trades : SubmitResult → List Trade
  | SubmitResult.ok _ ts => ts
  | SubmitResult.raised _ => []

/-- Method `add_order(order_type, ticker, quantity, price)`: construct the
order, try to match, then insert the remainder into its own side's list when
`new_order.quantity.get() > 0`. -/
def add_order (book : OrderBook) (order_type : Side) (ticker : Nat)
    (quantity : Int) (price : Int) : SubmitResult :=
  let new_order := mkOrder order_type ticker quantity price
  match match_orders book new_order with
  | MatchResult.typeError b => SubmitResult.raised b
  | MatchResult.ok b1 q1 trades =>
    if 0 < q1.get then
      match order_type with
      | Side.Buy =>
        let l := insert_order (b1.buy_orders ticker) { new_order with quantity := q1 }
        SubmitResult.ok { b1 with buy_orders := Function.update b1.buy_orders ticker l } trades
      | Side.Sell =>
        let l := insert_order (b1.sell_orders ticker) { new_order with quantity := q1 }
        SubmitResult.ok { b1 with sell_orders := Function.update b1.sell_orders ticker l } trades
    else
      SubmitResult.ok b1 trades

/-- Sum of the matched quantities of a trade list. -/
def tradeSum (ts : List Trade) : Int :=
  (ts.map (fun tr => tr.2.1)).sum

/-- Sum of the stored remaining quantities of a list of resting orders. -/
def listQtySum (l : List Order) : Int :=
  (l.map (fun o => o.quantity.value)).sum

/-- Total resting quantity (both sides) at one ticker. -/
def bookQtySum (b : OrderBook) (t : Nat) : Int :=
  listQtySum (b.buy_orders t) + listQtySum (b.sell_orders t)

/-- Priority order of prices within one side's list: for Buy the earlier
entry has the larger price, for Sell the smaller. -/
def priceBefore : Side → Int → Int → Prop
  | Side.Buy, a, b => b ≤ a
  | Side.Sell, a, b => a ≤ b

instance (s : Side) (a b : Int) : Decidable (priceBefore s a b) :=
  match s with
  | Side.Buy => inferInstanceAs (Decidable (b ≤ a))
  | Side.Sell => inferInstanceAs (Decidable (a ≤ b))

/-- A side's list is ordered best price first. -/
def sortedSide (s : Side) (l : List Order) : Prop :=
  l.Pairwise (fun a b => priceBefore s a.price b.price)

instance (s : Side) (l : List Order) : Decidable (sortedSide s l) :=
  inferInstanceAs (Decidable (l.Pairwise _))

/-- The `_insert_order` advance condition: the list entry `x` has strictly
better price than the order being inserted. -/
def strictlyBetter (new_order x : Order) : Prop :=
  (new_order.order_type = Side.Buy ∧ new_order.price < x.price) ∨
    (new_order.order_type = Side.Sell ∧ x.price < new_order.price)

/-- One side's resting list of a book. -/
def sideList (b : OrderBook) : Side → Nat → List Order
  | Side.Buy, t => b.buy_orders t
  | Side.Sell, t => b.sell_orders t

/-- Run a list of submissions (side, quantity, price), all at ticker `t`,
sequentially; `none` when one of them raised, otherwise the final book and
the concatenated trades. -/
def runSubs (t : Nat) : List (Side × Int × Int) → OrderBook → Option (OrderBook × List Trade)
  | [], b => some (b, [])
  | (s, q, p) :: rest, b =>
    match add_order b s t q p with
    | SubmitResult.raised _ => none
    | SubmitResult.ok b1 ts =>
      match runSubs t rest b1 with
      | none => none
      | some (bf, ts1) => some (bf, ts ++ ts1)

/-- Apply one submission (side, ticker, quantity, price), keeping the book
state whether or not the call raised. -/
def applySub (b : OrderBook) (sub : Side × Nat × Int × Int) : OrderBook :=
  (add_order b sub.1 sub.2.1 sub.2.2.1 sub.2.2.2).book

/-- The book reached from a fresh `OrderBook()` by a sequence of submissions. -/
def runBook (subs : List (Side × Nat × Int × Int)) : OrderBook :=
  subs.foldl applySub OrderBook.empty

/- Basic lemmas about the embedded operations -/

lemma wrap32_eq_self {v : Int} (h1 : -2147483648 ≤ v) (h2 : v < 2147483648) :
    wrap32 v = v := by
  unfold wrap32
  rw [Int.emod_eq_of_lt (by omega) (by omega)]
  omega

lemma AtomicInteger.get_eq (a : AtomicInteger) : a.get = a.value := rfl

lemma AtomicInteger.subtract_snd (a : AtomicInteger) (d : Int) :
    (a.subtract d).2 = a.value - d := by
  simp [AtomicInteger.subtract, AtomicInteger.add, sub_eq_add_neg]

lemma AtomicInteger.subtract_fst (a : AtomicInteger) (d : Int) :
    (a.subtract d).1 = ⟨wrap32 (a.value - d)⟩ := by
  simp [AtomicInteger.subtract, AtomicInteger.add, sub_eq_add_neg]

lemma tradeSum_nil : tradeSum [] = 0 := rfl

lemma tradeSum_append (a b : List Trade) : tradeSum (a ++ b) = tradeSum a + tradeSum b := by
  simp [tradeSum]

lemma tradeSum_single (p q : Int) (t : Nat) : tradeSum [(p, q, t)] = q := by
  simp [tradeSum]

lemma listQtySum_nil : listQtySum [] = 0 := rfl

lemma listQtySum_cons (o : Order) (l : List Order) :
    listQtySum (o :: l) = o.quantity.value + listQtySum l := by
  simp [listQtySum]

/-- One-step equation of the matching loop at an empty sell list. -/
lemma mbl_nil (p : Int) (t : Nat) (nq : AtomicInteger) (acc : List Trade) :
    match_buy_loop p t nq [] acc = (nq, [], acc) := by
  rw [match_buy_loop.eq_def]

/-- One-step equation of the matching loop at a non-empty sell list, with the
cell operations unfolded to their stored-value form (definitional). -/
lemma mbl_cons (p : Int) (t : Nat) (nq : AtomicInteger) (best : Order) (rest : List Order)
    (acc : List Trade) :
    match_buy_loop p t nq (best :: rest) acc =
      if best.price ≤ p then
        if best.quantity.value - min nq.value best.quantity.value = 0 then
          if nq.value - min nq.value best.quantity.value = 0 then
            (⟨wrap32 (nq.value - min nq.value best.quantity.value)⟩, rest,
              acc ++ [(p, min nq.value best.quantity.value, t)])
          else
            match_buy_loop p t ⟨wrap32 (nq.value - min nq.value best.quantity.value)⟩ rest
              (acc ++ [(p, min nq.value best.quantity.value, t)])
        else
          if nq.value - min nq.value best.quantity.value = 0 then
            (⟨wrap32 (nq.value - min nq.value best.quantity.value)⟩,
              { best with quantity := ⟨wrap32 (best.quantity.value - min nq.value best.quantity.value)⟩ } :: rest,
              acc ++ [(p, min nq.value best.quantity.value, t)])
          else
            match_buy_loop p t ⟨wrap32 (nq.value - min nq.value best.quantity.value)⟩
              ({ best with quantity := ⟨wrap32 (best.quantity.value - min nq.value best.quantity.value)⟩ } :: rest)
              (acc ++ [(p, min nq.value best.quantity.value, t)])
      else
        (nq, best :: rest, acc) := by
  conv_lhs => rw [match_buy_loop.eq_def]
  simp only [dite_eq_ite]
  rfl

/-- Main invariant of the Buy-side matching loop: the incoming cell stays in
`[0, nq.value]`; the surviving resting orders keep positive in-range
quantities; sortedness of the sell list is preserved; the combined quantity
`incoming + resting + 2 * traded` is conserved (each trade drains its
quantity from both the incoming and the resting cell); and every emitted
trade carries the incoming order's price and ticker. -/
lemma match_buy_loop_spec (p : Int) (t : Nat) (nq0 : AtomicInteger) (sells0 : List Order)
    (acc0 : List Trade) :
    0 ≤ nq0.value → nq0.value < 2147483648 →
    (∀ o ∈ sells0, 0 < o.quantity.value ∧ o.quantity.value < 2147483648) →
    (0 ≤ (match_buy_loop p t nq0 sells0 acc0).1.value ∧
        (match_buy_loop p t nq0 sells0 acc0).1.value ≤ nq0.value) ∧
      (∀ o ∈ (match_buy_loop p t nq0 sells0 acc0).2.1,
        0 < o.quantity.value ∧ o.quantity.value < 2147483648) ∧
      (sortedSide Side.Sell sells0 → sortedSide Side.Sell (match_buy_loop p t nq0 sells0 acc0).2.1) ∧
      ((match_buy_loop p t nq0 sells0 acc0).1.value +
            listQtySum (match_buy_loop p t nq0 sells0 acc0).2.1 +
            2 * tradeSum (match_buy_loop p t nq0 sells0 acc0).2.2 =
          nq0.value + listQtySum sells0 + 2 * tradeSum acc0) ∧
      (∀ tr ∈ (match_buy_loop p t nq0 sells0 acc0).2.2,
        tr ∈ acc0 ∨ (tr.1 = p ∧ tr.2.2 = t)) := by
  induction nq0, sells0, acc0 using match_buy_loop.induct p t with
  | case1 nq acc =>
    intro hq0 _ _
    rw [mbl_nil]
    refine ⟨⟨hq0, le_refl _⟩, ?_, ?_, ?_, ?_⟩
    · intro o ho
      exact absurd ho (List.not_mem_nil o)
    · intro _
      simp [sortedSide]
    · simp [listQtySum_nil]
    · intro tr htr
      exact Or.inl htr
  | case2 nq acc nxt rest hcross hb hn =>
    intro hq0 hq1 hs
    have hbest := hs nxt (List.mem_cons_self nxt rest)
    simp only [AtomicInteger.subtract_snd, AtomicInteger.get_eq] at hb hn
    have hm0 : 0 ≤ min nq.value nxt.quantity.value := le_min hq0 (le_of_lt hbest.1)
    rw [mbl_cons, if_pos hcross, if_pos hb, if_pos hn]
    dsimp only
    have hw : wrap32 (nq.value - min nq.value nxt.quantity.value) =
        nq.value - min nq.value nxt.quantity.value :=
      wrap32_eq_self (by omega) (by omega)
    refine ⟨⟨?_, ?_⟩, ?_, ?_, ?_, ?_⟩
    · rw [hw]
      omega
    · rw [hw]
      omega
    · intro o ho
      exact hs o (List.mem_cons_of_mem nxt ho)
    · intro hsort
      exact (List.pairwise_cons.mp hsort).2
    · rw [hw, tradeSum_append, tradeSum_single, listQtySum_cons]
      omega
    · intro tr htr
      rcases List.mem_append.mp htr with h | h
      · exact Or.inl h
      · rcases List.mem_singleton.mp h with rfl
        exact Or.inr ⟨rfl, rfl⟩
  | case3 nq acc nxt rest hcross hb hn ih =>
    intro hq0 hq1 hs
    have hbest := hs nxt (List.mem_cons_self nxt rest)
    simp only [AtomicInteger.subtract_snd, AtomicInteger.subtract_fst,
      AtomicInteger.get_eq] at hb hn ih
    have hm0 : 0 ≤ min nq.value nxt.quantity.value := le_min hq0 (le_of_lt hbest.1)
    have hm1 : min nq.value nxt.quantity.value ≤ nq.value := min_le_left _ _
    rw [mbl_cons, if_pos hcross, if_pos hb, if_neg hn]
    have hw : wrap32 (nq.value - min nq.value nxt.quantity.value) =
        nq.value - min nq.value nxt.quantity.value :=
      wrap32_eq_self (by omega) (by omega)
    have hrec := ih (by rw [hw]; omega) (by rw [hw]; omega)
      (fun o ho => hs o (List.mem_cons_of_mem nxt ho))
    refine ⟨⟨hrec.1.1, by have h2 := hrec.1.2; omega⟩, hrec.2.1, ?_, ?_, ?_⟩
    · intro hsort
      exact hrec.2.2.1 (List.pairwise_cons.mp hsort).2
    · have heq := hrec.2.2.2.1
      rw [tradeSum_append, tradeSum_single] at heq
      rw [listQtySum_cons]
      omega
    · intro tr htr
      rcases hrec.2.2.2.2 tr htr with h | h
      · rcases List.mem_append.mp h with h2 | h2
        · exact Or.inl h2
        · rcases List.mem_singleton.mp h2 with rfl
          exact Or.inr ⟨rfl, rfl⟩
      · exact Or.inr h
  | case4 nq acc nxt rest hcross hb hn =>
    intro hq0 hq1 hs
    have hbest := hs nxt (List.mem_cons_self nxt rest)
    simp only [AtomicInteger.subtract_snd, AtomicInteger.get_eq] at hb hn
    have hm0 : 0 ≤ min nq.value nxt.quantity.value := le_min hq0 (le_of_lt hbest.1)
    rw [mbl_cons, if_pos hcross, if_neg hb, if_pos hn]
    dsimp only
    have hw : wrap32 (nq.value - min nq.value nxt.quantity.value) =
        nq.value - min nq.value nxt.quantity.value :=
      wrap32_eq_self (by omega) (by omega)
    have hbw : wrap32 (nxt.quantity.value - min nq.value nxt.quantity.value) =
        nxt.quantity.value - min nq.value nxt.quantity.value :=
      wrap32_eq_self (by omega) (by omega)
    refine ⟨⟨?_, ?_⟩, ?_, ?_, ?_, ?_⟩
    · rw [hw]
      omega
    · rw [hw]
      omega
    · intro o ho
      rcases List.mem_cons.mp ho with rfl | ho2
      · dsimp only
        rw [hbw]
        omega
      · exact hs o (List.mem_cons_of_mem nxt ho2)
    · intro hsort
      rcases List.pairwise_cons.mp hsort with ⟨hhead, htail⟩
      refine List.pairwise_cons.mpr ⟨?_, htail⟩
      intro o ho
      exact hhead o ho
    · rw [hw, tradeSum_append, tradeSum_single, listQtySum_cons, listQtySum_cons]
      dsimp only
      rw [hbw]
      omega
    · intro tr htr
      rcases List.mem_append.mp htr with h | h
      · exact Or.inl h
      · rcases List.mem_singleton.mp h with rfl
        exact Or.inr ⟨rfl, rfl⟩
  | case5 nq acc nxt rest hcross hb hn ih =>
    intro hq0 hq1 hs
    exfalso
    simp only [AtomicInteger.subtract_snd, AtomicInteger.get_eq] at hb hn
    omega
  | case6 nq acc nxt rest hcross =>
    intro hq0 _ hs
    rw [mbl_cons, if_neg hcross]
    refine ⟨⟨hq0, le_refl _⟩, ?_, ?_, ?_, ?_⟩
    · intro o ho
      exact hs o ho
    · intro h
      exact h
    · simp
    · intro tr htr
      exact Or.inl htr

/-- Structure of the `_insert_order` traversal: the new order lands after a
prefix of strictly-better-priced entries, in front of the first entry that is
not strictly better; nothing else moves. -/
lemma insert_loop_split (new_order : Order) :
    ∀ (rest : List Order) (current : Order), strictlyBetter new_order current →
    ∃ l1 l2, insert_loop new_order current rest = l1 ++ new_order :: l2 ∧
      current :: rest = l1 ++ l2 ∧
      (∀ x ∈ l1, strictlyBetter new_order x) ∧
      (∀ hd, l2.head? = some hd → ¬ strictlyBetter new_order hd)
  | [], current => by
    intro hcur
    refine ⟨[current], [], rfl, rfl, ?_, ?_⟩
    · intro x hx
      rcases List.mem_singleton.mp hx with rfl
      exact hcur
    · intro hd h
      simp at h
  | nxt :: rest2, current => by
    intro hcur
    rw [insert_loop]
    by_cases h : (new_order.order_type = Side.Buy ∧ new_order.price < nxt.price) ∨
        (new_order.order_type = Side.Sell ∧ nxt.price < new_order.price)
    · rw [if_pos h]
      obtain ⟨l1, l2, he1, he2, hb, hhd⟩ := insert_loop_split new_order rest2 nxt h
      refine ⟨current :: l1, l2, ?_, ?_, ?_, hhd⟩
      · rw [he1]
        rfl
      · rw [List.cons_append, ← he2]
      · intro x hx
        rcases List.mem_cons.mp hx with rfl | hx2
        · exact hcur
        · exact hb x hx2
    · rw [if_neg h]
      refine ⟨[current], nxt :: rest2, rfl, rfl, ?_, ?_⟩
      · intro x hx
        rcases List.mem_singleton.mp hx with rfl
        exact hcur
      · intro hd hhd
        rcases Option.some_injective _ hhd.symm with rfl
        exact h

/-- Structure of `_insert_order` on the whole list: the new order is placed
after exactly the strictly-better-priced prefix, and in particular in front
of every already-resting order at its own price. -/
lemma insert_order_split (l : List Order) (new_order : Order) :
    ∃ l1 l2, insert_order l new_order = l1 ++ new_order :: l2 ∧
      l = l1 ++ l2 ∧
      (∀ x ∈ l1, strictlyBetter new_order x) ∧
      (∀ hd, l2.head? = some hd → ¬ strictlyBetter new_order hd) := by
  match l with
  | [] =>
    refine ⟨[], [], rfl, rfl, ?_, ?_⟩
    · intro x hx
      simp at hx
    · intro hd h
      simp at h
  | head :: rest =>
    rw [insert_order]
    by_cases h : (new_order.order_type = Side.Buy ∧ head.price ≤ new_order.price) ∨
        (new_order.order_type = Side.Sell ∧ new_order.price ≤ head.price)
    · rw [if_pos h]
      refine ⟨[], head :: rest, rfl, rfl, ?_, ?_⟩
      · intro x hx
        simp at hx
      · intro hd hhd
        rcases Option.some_injective _ hhd.symm with rfl
        intro hstrict
        rcases hstrict with ⟨hty, hlt⟩ | ⟨hty, hlt⟩
        · rcases h with ⟨_, hle⟩ | ⟨hty2, _⟩
          · omega
          · rw [hty] at hty2
            exact Side.noConfusion hty2
        · rcases h with ⟨hty2, _⟩ | ⟨_, hle⟩
          · rw [hty] at hty2
            exact Side.noConfusion hty2
          · omega
    · rw [if_neg h]
      refine insert_loop_split new_order rest head ?_
      rcases hty : new_order.order_type with _ | _
      · refine Or.inl ⟨hty, ?_⟩
        by_contra hlt
        exact h (Or.inl ⟨hty, by omega⟩)
      · refine Or.inr ⟨hty, ?_⟩
        by_contra hlt
        exact h (Or.inr ⟨hty, by omega⟩)

lemma listQtySum_append (a b : List Order) :
    listQtySum (a ++ b) = listQtySum a + listQtySum b := by
  simp [listQtySum]

/-- Inserting adds exactly the new order's stored quantity to the list total. -/
lemma insert_order_qtySum (l : List Order) (o : Order) :
    listQtySum (insert_order l o) = o.quantity.value + listQtySum l := by
  obtain ⟨l1, l2, he1, he2, _, _⟩ := insert_order_split l o
  rw [he1, he2, listQtySum_append, listQtySum_append, listQtySum_cons]
  ring

/-- Insertion produces no orders beyond the old ones and the new one. -/
lemma insert_order_mem (l : List Order) (o : Order) :
    ∀ x ∈ insert_order l o, x = o ∨ x ∈ l := by
  obtain ⟨l1, l2, he1, he2, _, _⟩ := insert_order_split l o
  intro x hx
  rw [he1] at hx
  rcases List.mem_append.mp hx with h1 | h1
  · exact Or.inr (by rw [he2]; exact List.mem_append.mpr (Or.inl h1))
  · rcases List.mem_cons.mp h1 with rfl | h2
    · exact Or.inl rfl
    · exact Or.inr (by rw [he2]; exact List.mem_append.mpr (Or.inr h2))

lemma priceBefore_trans (s : Side) {a b c : Int} (h1 : priceBefore s a b)
    (h2 : priceBefore s b c) : priceBefore s a c := by
  cases s
  · exact le_trans h2 h1
  · exact le_trans h1 h2

/-- Sorted insertion keeps a side's list ordered best price first. -/
lemma insert_order_sorted (s : Side) (l : List Order) (o : Order)
    (hty : o.order_type = s) (hl : sortedSide s l) : sortedSide s (insert_order l o) := by
  obtain ⟨l1, l2, he1, he2, hb, hhd⟩ := insert_order_split l o
  rw [he2] at hl
  rcases List.pairwise_append.mp hl with ⟨hp1, hp2, hcross⟩
  have hxo : ∀ x ∈ l1, priceBefore s x.price o.price := by
    intro x hx
    rcases hb x hx with ⟨hty2, hlt⟩ | ⟨hty2, hlt⟩
    · rw [hty] at hty2
      cases hty2
      exact le_of_lt hlt
    · rw [hty] at hty2
      cases hty2
      exact le_of_lt hlt
  have hoy : ∀ y ∈ l2, priceBefore s o.price y.price := by
    intro y hy
    match hl2 : l2 with
    | [] => simp at hy
    | hd :: tl =>
      have hnb := hhd hd rfl
      have hohd : priceBefore s o.price hd.price := by
        cases hs2 : s
        · rw [hs2] at hty
          by_contra hlt
          exact hnb (Or.inl ⟨hty, by simpa [priceBefore, hs2] using hlt⟩)
        · rw [hs2] at hty
          by_contra hlt
          exact hnb (Or.inr ⟨hty, by simpa [priceBefore, hs2] using hlt⟩)
      rcases List.mem_cons.mp hy with rfl | hy2
      · exact hohd
      · exact priceBefore_trans s hohd ((List.pairwise_cons.mp hp2).1 y hy2)
  rw [he1]
  refine List.pairwise_append.mpr ⟨hp1, ?_, ?_⟩
  · refine List.pairwise_cons.mpr ⟨hoy, hp2⟩
  · intro a ha b hb2
    rcases List.mem_cons.mp hb2 with rfl | hb3
    · exact hxo a ha
    · exact hcross a ha b hb3

/-- Unfolding of `match_orders` for an incoming Buy (definitional). -/
lemma match_orders_buy_eq (book : OrderBook) (t : Nat) (q p : Int) :
    match_orders book (mkOrder Side.Buy t q p) =
      MatchResult.ok
        { buy_orders := book.buy_orders,
          sell_orders := Function.update book.sell_orders t
            (match_buy_loop p t (AtomicInteger.init q) (book.sell_orders t) []).2.1 }
        (match_buy_loop p t (AtomicInteger.init q) (book.sell_orders t) []).1
        (match_buy_loop p t (AtomicInteger.init q) (book.sell_orders t) []).2.2 := rfl

/-- Unfolding of `match_orders` for an incoming Sell (definitional): the
`TypeError` fires exactly when the best resting Buy crosses. -/
lemma match_orders_sell_eq (book : OrderBook) (t : Nat) (q p : Int) :
    match_orders book (mkOrder Side.Sell t q p) =
      match book.buy_orders t with
      | [] => MatchResult.ok book (AtomicInteger.init q) []
      | best :: _ =>
        if p ≤ best.price then MatchResult.typeError book
        else MatchResult.ok book (AtomicInteger.init q) [] := rfl

/-- Unfolding of `add_order` for a Buy submission (definitional). -/
lemma add_order_buy_eq (book : OrderBook) (t : Nat) (q p : Int) :
    add_order book Side.Buy t q p =
      if 0 < (match_buy_loop p t (AtomicInteger.init q) (book.sell_orders t) []).1.value then
        SubmitResult.ok
          { buy_orders := Function.update book.buy_orders t
              (insert_order (book.buy_orders t)
                { order_type := Side.Buy, ticker := t,
                  quantity := (match_buy_loop p t (AtomicInteger.init q) (book.sell_orders t) []).1,
                  price := p }),
            sell_orders := Function.update book.sell_orders t
              (match_buy_loop p t (AtomicInteger.init q) (book.sell_orders t) []).2.1 }
          (match_buy_loop p t (AtomicInteger.init q) (book.sell_orders t) []).2.2
      else
        SubmitResult.ok
          { buy_orders := book.buy_orders,
            sell_orders := Function.update book.sell_orders t
              (match_buy_loop p t (AtomicInteger.init q) (book.sell_orders t) []).2.1 }
          (match_buy_loop p t (AtomicInteger.init q) (book.sell_orders t) []).2.2 := rfl

/-- Unfolding of `add_order` for a Sell submission (definitional). -/
lemma add_order_sell_eq (book : OrderBook) (t : Nat) (q p : Int) :
    add_order book Side.Sell t q p =
      match book.buy_orders t with
      | [] =>
        if 0 < (AtomicInteger.init q).value then
          SubmitResult.ok
            { buy_orders := book.buy_orders,
              sell_orders := Function.update book.sell_orders t
                (insert_order (book.sell_orders t) (mkOrder Side.Sell t q p)) } []
        else
          SubmitResult.ok book []
      | best :: _ =>
        if p ≤ best.price then
          SubmitResult.raised book
        else
          if 0 < (AtomicInteger.init q).value then
            SubmitResult.ok
              { buy_orders := book.buy_orders,
                sell_orders := Function.update book.sell_orders t
                  (insert_order (book.sell_orders t) (mkOrder Side.Sell t q p)) } []
          else
            SubmitResult.ok book [] := by
  unfold add_order
  dsimp only
  rw [match_orders_sell_eq]
  rcases book.buy_orders t with _ | ⟨best, tl⟩
  · rfl
  · dsimp only
    by_cases h : p ≤ best.price
    · rw [if_pos h, if_pos h]
    · rw [if_neg h, if_neg h]
      rfl

/-- A raised (`TypeError`) submission leaves the book exactly as it was. -/
lemma add_order_raised_eq (book : OrderBook) (s : Side) (t : Nat) (q p : Int) (b : OrderBook) :
    add_order book s t q p = SubmitResult.raised b → b = book := by
  cases s
  · rw [add_order_buy_eq]
    by_cases h : 0 < (match_buy_loop p t (AtomicInteger.init q) (book.sell_orders t) []).1.value
    · rw [if_pos h]
      intro hcon
      exact SubmitResult.noConfusion hcon
    · rw [if_neg h]
      intro hcon
      exact SubmitResult.noConfusion hcon
  · rw [add_order_sell_eq]
    rcases book.buy_orders t with _ | ⟨best, tl⟩ <;> dsimp only
    · by_cases h : 0 < (AtomicInteger.init q).value
      · rw [if_pos h]
        intro hcon
        exact SubmitResult.noConfusion hcon
      · rw [if_neg h]
        intro hcon
        exact SubmitResult.noConfusion hcon
    ·
      by_cases h : p ≤ best.price
      · rw [if_pos h]
        intro hcon
        cases hcon
        rfl
      · rw [if_neg h]
        by_cases h2 : 0 < (AtomicInteger.init q).value
        · rw [if_pos h2]
          intro hcon
          exact SubmitResult.noConfusion hcon
        · rw [if_neg h2]
          intro hcon
          exact SubmitResult.noConfusion hcon

/-- The five facts (conservation at `t`, both positivity invariants, order
preservation, frame) for the book produced by resting a Sell remainder. -/
lemma sell_insert_parts (book : OrderBook) (t : Nat) (q p : Int)
    (hq0 : 0 < q) (hq1 : q < 2147483648)
    (hbuy : ∀ o ∈ book.buy_orders t, 0 < o.quantity.value ∧ o.quantity.value < 2147483648)
    (hsell : ∀ o ∈ book.sell_orders t, 0 < o.quantity.value ∧ o.quantity.value < 2147483648) :
    (listQtySum ((OrderBook.mk book.buy_orders (Function.update book.sell_orders t
          (insert_order (book.sell_orders t) (mkOrder Side.Sell t q p)))).buy_orders t) +
        listQtySum ((OrderBook.mk book.buy_orders (Function.update book.sell_orders t
          (insert_order (book.sell_orders t) (mkOrder Side.Sell t q p)))).sell_orders t) +
        2 * tradeSum [] =
        listQtySum (book.buy_orders t) + listQtySum (book.sell_orders t) + q) ∧
      (∀ o ∈ (OrderBook.mk book.buy_orders (Function.update book.sell_orders t
          (insert_order (book.sell_orders t) (mkOrder Side.Sell t q p)))).buy_orders t,
        0 < o.quantity.value ∧ o.quantity.value < 2147483648) ∧
      (∀ o ∈ (OrderBook.mk book.buy_orders (Function.update book.sell_orders t
          (insert_order (book.sell_orders t) (mkOrder Side.Sell t q p)))).sell_orders t,
        0 < o.quantity.value ∧ o.quantity.value < 2147483648) ∧
      (sortedSide Side.Buy (book.buy_orders t) → sortedSide Side.Sell (book.sell_orders t) →
        sortedSide Side.Buy ((OrderBook.mk book.buy_orders (Function.update book.sell_orders t
          (insert_order (book.sell_orders t) (mkOrder Side.Sell t q p)))).buy_orders t) ∧
        sortedSide Side.Sell ((OrderBook.mk book.buy_orders (Function.update book.sell_orders t
          (insert_order (book.sell_orders t) (mkOrder Side.Sell t q p)))).sell_orders t)) ∧
      (∀ u, u ≠ t →
        (OrderBook.mk book.buy_orders (Function.update book.sell_orders t
          (insert_order (book.sell_orders t) (mkOrder Side.Sell t q p)))).buy_orders u =
            book.buy_orders u ∧
        (OrderBook.mk book.buy_orders (Function.update book.sell_orders t
          (insert_order (book.sell_orders t) (mkOrder Side.Sell t q p)))).sell_orders u =
            book.sell_orders u) := by
  have hw : wrap32 q = q := wrap32_eq_self (by omega) (by omega)
  have hqv : (mkOrder Side.Sell t q p).quantity.value = q := by
    simp [mkOrder, AtomicInteger.init, hw]
  dsimp only
  rw [Function.update_same]
  refine ⟨?_, hbuy, ?_, ?_, ?_⟩
  · rw [insert_order_qtySum, hqv, tradeSum_nil]
    ring
  · intro o ho
    rcases insert_order_mem _ _ o ho with rfl | hmem
    · rw [hqv]
      exact ⟨hq0, hq1⟩
    · exact hsell o hmem
  · intro hsb hss
    exact ⟨hsb, insert_order_sorted Side.Sell _ _ rfl hss⟩
  · intro u hu
    exact ⟨rfl, Function.update_noteq hu _ _⟩

/-- Behaviour of a completing `add_order` call with a valid quantity, on a
book whose resting quantities at `t` are positive and in 32-bit range:
quantity is conserved at `t` (counting each trade twice, once per side), the
positivity/range invariant and the price ordering of both sides are
preserved, and no other ticker's lists change. -/
lemma add_order_ok_spec (book : OrderBook) (s : Side) (t : Nat) (q p : Int)
    (hq0 : 0 < q) (hq1 : q < 2147483648)
    (hbuy : ∀ o ∈ book.buy_orders t, 0 < o.quantity.value ∧ o.quantity.value < 2147483648)
    (hsell : ∀ o ∈ book.sell_orders t, 0 < o.quantity.value ∧ o.quantity.value < 2147483648) :
    ∀ b ts, add_order book s t q p = SubmitResult.ok b ts →
      (listQtySum (b.buy_orders t) + listQtySum (b.sell_orders t) + 2 * tradeSum ts =
          listQtySum (book.buy_orders t) + listQtySum (book.sell_orders t) + q) ∧
      (∀ o ∈ b.buy_orders t, 0 < o.quantity.value ∧ o.quantity.value < 2147483648) ∧
      (∀ o ∈ b.sell_orders t, 0 < o.quantity.value ∧ o.quantity.value < 2147483648) ∧
      (sortedSide Side.Buy (book.buy_orders t) → sortedSide Side.Sell (book.sell_orders t) →
        sortedSide Side.Buy (b.buy_orders t) ∧ sortedSide Side.Sell (b.sell_orders t)) ∧
      (∀ u, u ≠ t → b.buy_orders u = book.buy_orders u ∧ b.sell_orders u = book.sell_orders u) := by
  have hw : wrap32 q = q := wrap32_eq_self (by omega) (by omega)
  have hiv : (AtomicInteger.init q).value = q := by
    simp [AtomicInteger.init, hw]
  cases s
  · intro b ts h
    rw [add_order_buy_eq] at h
    have hspec := match_buy_loop_spec p t (AtomicInteger.init q) (book.sell_orders t) []
      (by omega) (by omega) hsell
    rw [hiv] at hspec
    by_cases hpos :
        0 < (match_buy_loop p t (AtomicInteger.init q) (book.sell_orders t) []).1.value
    · rw [if_pos hpos] at h
      injection h with h1 h2
      subst h1
      subst h2
      dsimp only
      rw [Function.update_same, Function.update_same]
      refine ⟨?_, ?_, hspec.2.1, ?_, ?_⟩
      · rw [insert_order_qtySum]
        have heq := hspec.2.2.2.1
        rw [tradeSum_nil] at heq
        dsimp only
        omega
      · intro o ho
        rcases insert_order_mem _ _ o ho with rfl | hmem
        · dsimp only
          have h2 := hspec.1.2
          exact ⟨hpos, by omega⟩
        · exact hbuy o hmem
      · intro hsb hss
        exact ⟨insert_order_sorted Side.Buy _ _ rfl hsb, hspec.2.2.1 hss⟩
      · intro u hu
        exact ⟨Function.update_noteq hu _ _, Function.update_noteq hu _ _⟩
    · rw [if_neg hpos] at h
      injection h with h1 h2
      subst h1
      subst h2
      dsimp only
      rw [Function.update_same]
      have hz : (match_buy_loop p t (AtomicInteger.init q) (book.sell_orders t) []).1.value = 0 := by
        have h1 := hspec.1.1
        omega
      refine ⟨?_, hbuy, hspec.2.1, ?_, ?_⟩
      · have heq := hspec.2.2.2.1
        rw [tradeSum_nil] at heq
        omega
      · intro hsb hss
        exact ⟨hsb, hspec.2.2.1 hss⟩
      · intro u hu
        exact ⟨rfl, Function.update_noteq hu _ _⟩
  · intro b ts h
    rw [add_order_sell_eq] at h
    have hpos : 0 < (AtomicInteger.init q).value := by omega
    have hshape : b = OrderBook.mk book.buy_orders (Function.update book.sell_orders t
        (insert_order (book.sell_orders t) (mkOrder Side.Sell t q p))) ∧ ts = [] := by
      rcases hl : book.buy_orders t with _ | ⟨best, tl⟩ <;> rw [hl] at h <;> dsimp only at h
      · rw [if_pos hpos] at h
        injection h with h1 h2
        exact ⟨h1.symm, h2.symm⟩
      · by_cases hcr : p ≤ best.price
        · rw [if_pos hcr] at h
          exact SubmitResult.noConfusion h
        · rw [if_neg hcr, if_pos hpos] at h
          injection h with h1 h2
          exact ⟨h1.symm, h2.symm⟩
    rcases hshape with ⟨rfl, rfl⟩
    exact sell_insert_parts book t q p hq0 hq1 hbuy hsell

/-- The reachable-state invariant: every per-ticker list is ordered best
price first and all resting quantities are positive and in 32-bit range. -/
def BookInv (b : OrderBook) : Prop :=
  ∀ t, sortedSide Side.Buy (b.buy_orders t) ∧ sortedSide Side.Sell (b.sell_orders t) ∧
    (∀ o ∈ b.buy_orders t, 0 < o.quantity.value ∧ o.quantity.value < 2147483648) ∧
    (∀ o ∈ b.sell_orders t, 0 < o.quantity.value ∧ o.quantity.value < 2147483648)

lemma BookInv_empty : BookInv OrderBook.empty := by
  intro t
  refine ⟨?_, ?_, ?_, ?_⟩ <;> simp [OrderBook.empty, sortedSide]

/-- One submission with a valid quantity preserves the book invariant, also
when it raises. -/
lemma BookInv_add_order (b : OrderBook) (s : Side) (t : Nat) (q p : Int)
    (hq0 : 0 < q) (hq1 : q < 2147483648) (hinv : BookInv b) :
    BookInv (add_order b s t q p).book := by
  rcases hres : add_order b s t q p with ⟨b2, ts⟩ | b2
  · have hspec := add_order_ok_spec b s t q p hq0 hq1 (hinv t).2.2.1 (hinv t).2.2.2 b2 ts hres
    intro u
    simp only [SubmitResult.book]
    by_cases hu : u = t
    · subst hu
      have hsorted := hspec.2.2.2.1 (hinv u).1 (hinv u).2.1
      exact ⟨hsorted.1, hsorted.2, hspec.2.1, hspec.2.2.1⟩
    · have hframe := hspec.2.2.2.2 u hu
      rw [hframe.1, hframe.2]
      exact hinv u
  · have hb2 := add_order_raised_eq b s t q p b2 hres
    subst hb2
    simp only [SubmitResult.book]
    exact hinv

/-- Every book reachable by a sequence of valid submissions from the fresh
book satisfies the invariant. -/
lemma runBook_inv : ∀ (subs : List (Side × Nat × Int × Int)) (b0 : OrderBook),
    BookInv b0 → (∀ sub ∈ subs, 0 < sub.2.2.1 ∧ sub.2.2.1 < 2147483648) →
    BookInv (subs.foldl applySub b0)
  | [], b0, h0, _ => h0
  | sub :: rest, b0, h0, hall => by
    rw [List.foldl_cons]
    have h1 := hall sub (List.mem_cons_self sub rest)
    exact runBook_inv rest (applySub b0 sub)
      (BookInv_add_order b0 sub.1 sub.2.1 sub.2.2.1 sub.2.2.2 h1.1 h1.2 h0)
      (fun x hx => hall x (List.mem_cons_of_mem sub hx))

/-- Every trade the matching loop ever appends carries the incoming order's
price as its trade price and the incoming order's ticker (unconditionally). -/
lemma match_buy_loop_trades (p : Int) (t : Nat) :
    ∀ (nq0 : AtomicInteger) (sells0 : List Order) (acc0 : List Trade),
    ∀ tr ∈ (match_buy_loop p t nq0 sells0 acc0).2.2,
      tr ∈ acc0 ∨ (tr.1 = p ∧ tr.2.2 = t) := by
  intro nq0 sells0 acc0
  induction nq0, sells0, acc0 using match_buy_loop.induct p t with
  | case1 nq acc =>
    rw [mbl_nil]
    intro tr htr
    exact Or.inl htr
  | case2 nq acc nxt rest hcross hb hn =>
    simp only [AtomicInteger.subtract_snd, AtomicInteger.get_eq] at hb hn
    rw [mbl_cons, if_pos hcross, if_pos hb, if_pos hn]
    intro tr htr
    rcases List.mem_append.mp htr with h | h
    · exact Or.inl h
    · rcases List.mem_singleton.mp h with rfl
      exact Or.inr ⟨rfl, rfl⟩
  | case3 nq acc nxt rest hcross hb hn ih =>
    simp only [AtomicInteger.subtract_snd, AtomicInteger.subtract_fst,
      AtomicInteger.get_eq] at hb hn ih
    rw [mbl_cons, if_pos hcross, if_pos hb, if_neg hn]
    intro tr htr
    rcases ih tr htr with h | h
    · rcases List.mem_append.mp h with h2 | h2
      · exact Or.inl h2
      · rcases List.mem_singleton.mp h2 with rfl
        exact Or.inr ⟨rfl, rfl⟩
    · exact Or.inr h
  | case4 nq acc nxt rest hcross hb hn =>
    simp only [AtomicInteger.subtract_snd, AtomicInteger.get_eq] at hb hn
    rw [mbl_cons, if_pos hcross, if_neg hb, if_pos hn]
    intro tr htr
    rcases List.mem_append.mp htr with h | h
    · exact Or.inl h
    · rcases List.mem_singleton.mp h with rfl
      exact Or.inr ⟨rfl, rfl⟩
  | case5 nq acc nxt rest hcross hb hn ih =>
    simp only [AtomicInteger.subtract_snd, AtomicInteger.subtract_fst,
      AtomicInteger.get_eq] at hb hn ih
    rw [mbl_cons, if_pos hcross, if_neg hb, if_neg hn]
    intro tr htr
    rcases ih tr htr with h | h
    · rcases List.mem_append.mp h with h2 | h2
      · exact Or.inl h2
      · rcases List.mem_singleton.mp h2 with rfl
        exact Or.inr ⟨rfl, rfl⟩
    · exact Or.inr h
  | case6 nq acc nxt rest hcross =>
    rw [mbl_cons, if_neg hcross]
    intro tr htr
    exact Or.inl htr

/-- Restatement of `add_order` through `match_orders` (definitional). -/
lemma add_order_via_match (book : OrderBook) (s : Side) (t : Nat) (q p : Int) :
    add_order book s t q p =
      match match_orders book (mkOrder s t q p) with
      | MatchResult.typeError b => SubmitResult.raised b
      | MatchResult.ok b1 q1 trades =>
        if 0 < q1.get then
          match s with
          | Side.Buy =>
            SubmitResult.ok
              (OrderBook.mk
                (Function.update b1.buy_orders t
                  (insert_order (b1.buy_orders t) { mkOrder s t q p with quantity := q1 }))
                b1.sell_orders)
              trades
          | Side.Sell =>
            SubmitResult.ok
              (OrderBook.mk b1.buy_orders
                (Function.update b1.sell_orders t
                  (insert_order (b1.sell_orders t) { mkOrder s t q p with quantity := q1 })))
              trades
        else
          SubmitResult.ok b1 trades := by
  cases s <;> rfl

/-- Conservation along a run: starting from any book satisfying the
invariant, a completing sequence of valid submissions at one ticker changes
the total resting quantity at that ticker by the submitted total minus twice
the traded total. -/
lemma runSubs_conserve (t : Nat) : ∀ (subs : List (Side × Int × Int)) (b0 : OrderBook),
    BookInv b0 → (∀ s ∈ subs, 0 < s.2.1 ∧ s.2.1 < 2147483648) →
    ∀ b fills, runSubs t subs b0 = some (b, fills) →
    bookQtySum b t + 2 * tradeSum fills = bookQtySum b0 t + (subs.map (fun s => s.2.1)).sum
  | [], b0, _, _, b, fills => by
    intro hrun
    rw [runSubs] at hrun
    injection hrun with h1
    injection h1 with hb hf
    subst hb
    subst hf
    rw [tradeSum_nil]
    simp
  | (s, q, p) :: rest, b0, hinv, hall, b, fills => by
    intro hrun
    rw [runSubs] at hrun
    rcases hres : add_order b0 s t q p with ⟨b1, ts⟩ | b1
    · rw [hres] at hrun
      dsimp only at hrun
      rcases hrec : runSubs t rest b1 with _ | ⟨bf, ts1⟩
      · rw [hrec] at hrun
        exact Option.noConfusion hrun
      · rw [hrec] at hrun
        dsimp only at hrun
        injection hrun with h1
        injection h1 with hb hf
        subst hb
        subst hf
        have hq := hall (s, q, p) (List.mem_cons_self _ rest)
        have hspec := add_order_ok_spec b0 s t q p hq.1 hq.2 (hinv t).2.2.1 (hinv t).2.2.2
          b1 ts hres
        have hinv1 : BookInv b1 := by
          have h2 := BookInv_add_order b0 s t q p hq.1 hq.2 hinv
          rw [hres] at h2
          exact h2
        have hih := runSubs_conserve t rest b1 hinv1
          (fun x hx => hall x (List.mem_cons_of_mem _ hx)) bf ts1 hrec
        have hcons := hspec.1
        rw [tradeSum_append]
        unfold bookQtySum at hih ⊢
        simp only [List.map_cons, List.sum_cons]
        omega
    · rw [hres] at hrun
      exact Option.noConfusion hrun

/-- The trades a zero-quantity Buy submission returns: one zero-quantity
record when the best resting sell crosses, none otherwise. -/
def zeroTrades (p : Int) (t : Nat) (sells : List Order) : List Trade :=
  match sells with
  | [] => []
  | best :: _ => if best.price ≤ p then [(p, 0, t)] else []

/-- A zero-quantity Buy leaves the loop state unchanged and emits exactly one
zero-quantity trade when the best resting sell crosses. -/
lemma match_buy_loop_zero (p : Int) (t : Nat) (sells : List Order)
    (hs : ∀ o ∈ sells, 0 < o.quantity.value ∧ o.quantity.value < 2147483648) :
    match_buy_loop p t (AtomicInteger.init 0) sells [] =
      (AtomicInteger.init 0, sells, zeroTrades p t sells) := by
  rcases sells with _ | ⟨best, rest⟩
  · rw [mbl_nil]
    rfl
  · have hbp := hs best (List.mem_cons_self best rest)
    have hv0 : (AtomicInteger.init 0).value = 0 := by
      norm_num [AtomicInteger.init, wrap32]
    have hm : min (AtomicInteger.init 0).value best.quantity.value = 0 := by
      rw [hv0]
      exact min_eq_left (le_of_lt hbp.1)
    rw [mbl_cons, hm]
    rw [show zeroTrades p t (best :: rest) = if best.price ≤ p then [(p, 0, t)] else [] from rfl]
    by_cases hcr : best.price ≤ p
    · rw [if_pos hcr, if_neg (by omega), if_pos (by omega), if_pos hcr]
      have hqq : (⟨wrap32 (best.quantity.value - 0)⟩ : AtomicInteger) = best.quantity := by
        rw [show best.quantity.value - 0 = best.quantity.value by ring]
        rw [wrap32_eq_self (by omega) (by omega)]
      have hq0 : (⟨wrap32 ((AtomicInteger.init 0).value - 0)⟩ : AtomicInteger) =
          AtomicInteger.init 0 := by
        norm_num [AtomicInteger.init, wrap32]
      rw [hqq, hq0]
      rfl
    · rw [if_neg hcr, if_neg hcr]

/-- A zero-quantity Buy submission: the book's contents are unchanged, and
the returned trades are one zero-quantity record when the best resting Sell
crosses, none otherwise. -/
lemma add_order_zero_buy (b : OrderBook) (t : Nat) (p : Int)
    (hs : ∀ o ∈ b.sell_orders t, 0 < o.quantity.value ∧ o.quantity.value < 2147483648) :
    add_order b Side.Buy t 0 p = SubmitResult.ok b (zeroTrades p t (b.sell_orders t)) := by
  rw [add_order_buy_eq, match_buy_loop_zero p t _ hs]
  have hv0 : (AtomicInteger.init 0).value = 0 := by
    norm_num [AtomicInteger.init, wrap32]
  rw [if_neg (by rw [hv0]; omega)]
  rw [Function.update_eq_self]

/-- A zero-quantity Sell submission: book unchanged, no trades observable
(when the best resting Buy crosses it raises, otherwise it returns normally
without resting anything). -/
lemma add_order_zero_sell (b : OrderBook) (t : Nat) (p : Int) :
    (add_order b Side.Sell t 0 p).book = b ∧ (add_order b Side.Sell t 0 p).trades = [] := by
  rw [add_order_sell_eq]
  have hv0 : (AtomicInteger.init 0).value = 0 := by
    norm_num [AtomicInteger.init, wrap32]
  rcases hl : b.buy_orders t with _ | ⟨best, tl⟩ <;> dsimp only
  · rw [if_neg (by rw [hv0]; omega)]
    exact ⟨rfl, rfl⟩
  · by_cases hcr : p ≤ best.price
    · rw [if_pos hcr]
      exact ⟨rfl, rfl⟩
    · rw [if_neg hcr, if_neg (by rw [hv0]; omega)]
      exact ⟨rfl, rfl⟩

/- Concrete states used to settle individual claims -/

/-- A book with a single resting Sell of 10 shares at price 10 on ticker 0. -/
def c1Book : OrderBook :=
  { buy_orders := fun _ => [],
    sell_orders := fun u => if u = 0 then [mkOrder Side.Sell 0 10 10] else [] }

lemma c1_run : (add_order c1Book Side.Buy 0 10 11).trades = [(11, 10, 0)] := by
  have hloop : match_buy_loop 11 0 (AtomicInteger.init 10) (c1Book.sell_orders 0) [] =
      (⟨0⟩, [], [(11, 10, 0)]) := by
    rw [show c1Book.sell_orders 0 = [mkOrder Side.Sell 0 10 10] from rfl]
    rw [mbl_cons]
    norm_num [mkOrder, AtomicInteger.init, wrap32]
  rw [add_order_buy_eq, hloop]
  norm_num [SubmitResult.trades]

/-- A book with a single resting Buy of 20 shares at price 15 on ticker 3. -/
def c2Book : OrderBook :=
  { buy_orders := fun u => if u = 3 then [mkOrder Side.Buy 3 20 15] else [],
    sell_orders := fun _ => [] }

lemma c2_run : add_order c2Book Side.Sell 3 8 15 = SubmitResult.raised c2Book := by
  rw [add_order_sell_eq]
  rw [show c2Book.buy_orders 3 = [mkOrder Side.Buy 3 20 15] from rfl]
  dsimp only
  rw [if_pos (by norm_num [mkOrder])]

/-- A book with a single resting Buy of 10 shares at price 10 on ticker 7. -/
def c3Book : OrderBook :=
  { buy_orders := fun u => if u = 7 then [mkOrder Side.Buy 7 10 10] else [],
    sell_orders := fun _ => [] }

lemma c3_run : add_order c3Book Side.Sell 7 5 10 = SubmitResult.raised c3Book := by
  rw [add_order_sell_eq]
  rw [show c3Book.buy_orders 7 = [mkOrder Side.Buy 7 10 10] from rfl]
  dsimp only
  rw [if_pos (by norm_num [mkOrder])]

/-- A book with a single resting Buy of 10 shares at price 10 on ticker 0. -/
def c4Book : OrderBook :=
  { buy_orders := fun u => if u = 0 then [mkOrder Side.Buy 0 10 10] else [],
    sell_orders := fun _ => [] }

lemma c4_run : ((add_order c4Book Side.Buy 0 5 10).book.buy_orders 0).map
    (fun o => (o.price, o.quantity.get)) = [(10, 5), (10, 10)] := by
  rw [add_order_buy_eq]
  rw [show c4Book.sell_orders 0 = ([] : List Order) from rfl, mbl_nil]
  rw [if_pos (by norm_num [AtomicInteger.init, wrap32])]
  simp only [SubmitResult.book]
  rw [show (Function.update c4Book.buy_orders 0
      (insert_order (c4Book.buy_orders 0)
        { order_type := Side.Buy, ticker := 0,
          quantity := (AtomicInteger.init 5, ([] : List Order), ([] : List Trade)).1,
          price := 10 })) 0 =
    insert_order (c4Book.buy_orders 0)
      { order_type := Side.Buy, ticker := 0, quantity := AtomicInteger.init 5, price := 10 }
    from Function.update_same _ _ _]
  rw [show c4Book.buy_orders 0 = [mkOrder Side.Buy 0 10 10] from rfl]
  rw [insert_order]
  rw [if_pos (Or.inl ⟨rfl, by norm_num [mkOrder]⟩)]
  norm_num [mkOrder, AtomicInteger.init, AtomicInteger.get, wrap32]

/-- The book after submitting Sell 100 at price 10 on ticker 0 to a fresh book. -/
def c5MidBook : OrderBook :=
  { buy_orders := fun _ => [],
    sell_orders := Function.update (fun _ => ([] : List Order)) 0 [mkOrder Side.Sell 0 100 10] }

/-- The book after the crossing Buy 100 at price 10 drains the resting Sell. -/
def c5EndBook : OrderBook :=
  { buy_orders := fun _ => [],
    sell_orders := Function.update
      (Function.update (fun _ => ([] : List Order)) 0 [mkOrder Side.Sell 0 100 10]) 0 [] }

lemma c5_first : add_order OrderBook.empty Side.Sell 0 100 10 =
    SubmitResult.ok c5MidBook [] := by
  rw [add_order_sell_eq]
  rw [show OrderBook.empty.buy_orders 0 = ([] : List Order) from rfl]
  dsimp only
  rw [if_pos (by norm_num [AtomicInteger.init, wrap32])]
  rfl

lemma c5_second : add_order c5MidBook Side.Buy 0 100 10 =
    SubmitResult.ok c5EndBook [(10, 100, 0)] := by
  have hloop : match_buy_loop 10 0 (AtomicInteger.init 100) (c5MidBook.sell_orders 0) [] =
      (⟨0⟩, [], [(10, 100, 0)]) := by
    rw [show c5MidBook.sell_orders 0 = [mkOrder Side.Sell 0 100 10] from rfl]
    rw [mbl_cons]
    norm_num [mkOrder, AtomicInteger.init, wrap32]
  rw [add_order_buy_eq, hloop]
  rw [if_neg (by norm_num)]
  rfl

/-- A book with a single resting Buy of 10 shares at price 10 on ticker 2. -/
def c6Book : OrderBook :=
  { buy_orders := fun u => if u = 2 then [mkOrder Side.Buy 2 10 10] else [],
    sell_orders := fun _ => [] }

lemma c6_run : add_order c6Book Side.Sell 2 4 9 = SubmitResult.raised c6Book := by
  rw [add_order_sell_eq]
  rw [show c6Book.buy_orders 2 = [mkOrder Side.Buy 2 10 10] from rfl]
  dsimp only
  rw [if_pos (by norm_num [mkOrder])]

/-- The matching-phase output of a Buy 5 at 10 on ticker 0 against a fresh book. -/
def c7WitBook : OrderBook :=
  { buy_orders := fun _ => [],
    sell_orders := Function.update (fun _ => ([] : List Order)) 0 [] }

lemma c7_wit_match : match_orders OrderBook.empty (mkOrder Side.Buy 0 5 10) =
    MatchResult.ok c7WitBook (AtomicInteger.init 5) [] := by
  rw [match_orders_buy_eq]
  rw [show OrderBook.empty.sell_orders 0 = ([] : List Order) from rfl, mbl_nil]
  rfl

/-- A book with a single resting Sell of 10 shares at price 10 on ticker 0. -/
def c9Book : OrderBook :=
  { buy_orders := fun _ => [],
    sell_orders := fun u => if u = 0 then [mkOrder Side.Sell 0 10 10] else [] }

lemma c9_sell_range : ∀ o ∈ c9Book.sell_orders 0,
    0 < o.quantity.value ∧ o.quantity.value < 2147483648 := by
  intro o ho
  rcases List.mem_singleton.mp ho with rfl
  norm_num [mkOrder, AtomicInteger.init, wrap32]

lemma c9_run : (add_order c9Book Side.Buy 0 0 11).trades = [(11, 0, 0)] := by
  rw [add_order_zero_buy c9Book 0 11 c9_sell_range]
  rw [show c9Book.sell_orders 0 = [mkOrder Side.Sell 0 10 10] from rfl]
  norm_num [SubmitResult.trades, zeroTrades, mkOrder]

/-- The book after submitting Buy 5 at price 10 on ticker 0 to a fresh book. -/
def c5WitBook : OrderBook :=
  { buy_orders := Function.update (fun _ => ([] : List Order)) 0 [mkOrder Side.Buy 0 5 10],
    sell_orders := Function.update (fun _ => ([] : List Order)) 0 [] }

lemma c5_wit_run : runSubs 0 [(Side.Buy, 5, 10)] OrderBook.empty =
    some (c5WitBook, []) := by
  have hadd : add_order OrderBook.empty Side.Buy 0 5 10 = SubmitResult.ok c5WitBook [] := by
    rw [add_order_buy_eq]
    rw [show OrderBook.empty.sell_orders 0 = ([] : List Order) from rfl, mbl_nil]
    rw [if_pos (by norm_num [AtomicInteger.init, wrap32])]
    rfl
  rw [runSubs, hadd]
  dsimp only
  rw [runSubs]
  rfl

/- Claims -/

/-- Claim C1 counterexample: submitting Buy 10 at price 11 against a resting
Sell 10 at price 10 executes, but the emitted Fill carries price 11 — the
incoming order's price — not the resting order's price 10. -/
theorem C1_counterexample :
    (add_order c1Book Side.Buy 0 10 11).trades = [(11, 10, 0)] ∧
    (c1Book.sell_orders 0).map Order.price = [10] ∧
    ¬ ((11 : Int) = 10) := by
  refine ⟨c1_run, ?_, by norm_num⟩
  rw [show c1Book.sell_orders 0 = [mkOrder Side.Sell 0 10 10] from rfl]
  rfl

/-- Claim C1, amended: every Fill record emitted by a submission carries the
incoming (aggressor) order's price as its execution price, never the resting
order's price. -/
theorem C1_fill_price_incoming (b : OrderBook) (s : Side) (t : Nat) (q p : Int) :
    ∀ tr ∈ (add_order b s t q p).trades, tr.1 = p := by
  intro tr htr
  cases s
  · rw [add_order_buy_eq] at htr
    by_cases hpos : 0 < (match_buy_loop p t (AtomicInteger.init q) (b.sell_orders t) []).1.value
    · rw [if_pos hpos] at htr
      simp only [SubmitResult.trades] at htr
      rcases match_buy_loop_trades p t (AtomicInteger.init q) (b.sell_orders t) [] tr htr with h | h
      · exact absurd h (List.not_mem_nil tr)
      · exact h.1
    · rw [if_neg hpos] at htr
      simp only [SubmitResult.trades] at htr
      rcases match_buy_loop_trades p t (AtomicInteger.init q) (b.sell_orders t) [] tr htr with h | h
      · exact absurd h (List.not_mem_nil tr)
      · exact h.1
  · rw [add_order_sell_eq] at htr
    rcases hl : b.buy_orders t with _ | ⟨best, tl⟩ <;> rw [hl] at htr <;> dsimp only at htr
    · by_cases h0 : 0 < (AtomicInteger.init q).value
      · rw [if_pos h0] at htr
        simp only [SubmitResult.trades] at htr
        exact absurd htr (List.not_mem_nil tr)
      · rw [if_neg h0] at htr
        simp only [SubmitResult.trades] at htr
        exact absurd htr (List.not_mem_nil tr)
    · by_cases hcr : p ≤ best.price
      · rw [if_pos hcr] at htr
        simp only [SubmitResult.trades] at htr
        exact absurd htr (List.not_mem_nil tr)
      · rw [if_neg hcr] at htr
        by_cases h0 : 0 < (AtomicInteger.init q).value
        · rw [if_pos h0] at htr
          simp only [SubmitResult.trades] at htr
          exact absurd htr (List.not_mem_nil tr)
        · rw [if_neg h0] at htr
          simp only [SubmitResult.trades] at htr
          exact absurd htr (List.not_mem_nil tr)

/-- Witness for the amended C1 theorem at the concrete crossing submission. -/
theorem C1_fill_price_incoming_witness : (((11 : Int), (10 : Int), (0 : Nat)) : Trade).1 = 11 :=
  C1_fill_price_incoming c1Book Side.Buy 0 10 11 (11, 10, 0)
    (by rw [c1_run]; exact List.mem_singleton.mpr rfl)

/-- Claim C2: the failing input for the Sell-side `min` defect.  Against a
resting Buy of 20 shares at 15, submitting Sell 8 at 15 crosses, and the
code raises `TypeError` computing `min` over the two `AtomicInteger`
objects; the numeric minimum is never computed on the Sell side. -/
theorem C2_sell_min_typeerror :
    (c2Book.buy_orders 3).map (fun o => (o.price, o.quantity.get)) = [(15, 20)] ∧
    add_order c2Book Side.Sell 3 8 15 = SubmitResult.raised c2Book := by
  refine ⟨?_, c2_run⟩
  rw [show c2Book.buy_orders 3 = [mkOrder Side.Buy 3 20 15] from rfl]
  norm_num [mkOrder, AtomicInteger.get, AtomicInteger.init, wrap32]

/-- Claim C3: a submission meeting every precondition (positive quantity 5,
non-negative price 10, valid instrument index 7) still fails: the Sell
crosses the resting Buy and `add_order` raises instead of returning fills. -/
theorem C3_valid_sell_raises :
    (0 : Int) < 5 ∧ (0 : Int) ≤ 10 ∧ 7 < 1024 ∧
    add_order c3Book Side.Sell 7 5 10 = SubmitResult.raised c3Book :=
  ⟨by norm_num, by norm_num, by norm_num, c3_run⟩

/-- Claim C4 counterexample: after a Buy of 10 at price 10 is resting,
submitting another Buy of 5 at the same price 10 places the new order at the
head — in front of the earlier equal-priced order, not after it. -/
theorem C4_counterexample :
    ((add_order c4Book Side.Buy 0 5 10).book.buy_orders 0).map
        (fun o => (o.price, o.quantity.get)) = [(10, 5), (10, 10)] ∧
    ([(10, 5), (10, 10)] : List (Int × Int)) ≠ [(10, 10), (10, 5)] :=
  ⟨c4_run, by decide⟩

/-- Claim C4, amended: `_insert_order` places the new order in front of every
resting order that does not have a strictly better price — in particular in
front of all orders at its own price (last-in-first-matched at equal price). -/
theorem C4_lifo_at_equal_price (l : List Order) (o : Order) :
    ∃ l1 l2, insert_order l o = l1 ++ o :: l2 ∧ l = l1 ++ l2 ∧
      ∀ x ∈ l1, (o.order_type = Side.Buy → o.price < x.price) ∧
        (o.order_type = Side.Sell → x.price < o.price) := by
  obtain ⟨l1, l2, he1, he2, hb, _⟩ := insert_order_split l o
  refine ⟨l1, l2, he1, he2, ?_⟩
  intro x hx
  constructor
  · intro hty
    rcases hb x hx with ⟨_, h⟩ | ⟨hty2, _⟩
    · exact h
    · rw [hty] at hty2
      exact Side.noConfusion hty2
  · intro hty
    rcases hb x hx with ⟨hty2, _⟩ | ⟨_, h⟩
    · rw [hty] at hty2
      exact Side.noConfusion hty2
    · exact h

/-- Witness for the amended C4 theorem at a concrete equal-price insertion. -/
theorem C4_lifo_at_equal_price_witness :
    ∃ l1 l2, insert_order [mkOrder Side.Buy 0 10 10] (mkOrder Side.Buy 0 5 10) =
        l1 ++ mkOrder Side.Buy 0 5 10 :: l2 ∧
      [mkOrder Side.Buy 0 10 10] = l1 ++ l2 ∧
      ∀ x ∈ l1, ((mkOrder Side.Buy 0 5 10).order_type = Side.Buy →
          (mkOrder Side.Buy 0 5 10).price < x.price) ∧
        ((mkOrder Side.Buy 0 5 10).order_type = Side.Sell →
          x.price < (mkOrder Side.Buy 0 5 10).price) :=
  C4_lifo_at_equal_price [mkOrder Side.Buy 0 10 10] (mkOrder Side.Buy 0 5 10)

/-- Claim C5 counterexample: submit Sell 100 at 10, then Buy 100 at 10.  The
submitted total is 200, the book is empty afterwards, and the single Fill
records quantity 100 — so resting + fills is 100, not 200: the claim's
equation fails because each Fill drains quantity from both orders at once. -/
theorem C5_counterexample :
    add_order OrderBook.empty Side.Sell 0 100 10 = SubmitResult.ok c5MidBook [] ∧
    add_order c5MidBook Side.Buy 0 100 10 = SubmitResult.ok c5EndBook [(10, 100, 0)] ∧
    bookQtySum c5EndBook 0 = 0 ∧
    bookQtySum c5EndBook 0 + tradeSum ([] ++ [(10, 100, 0)]) ≠ 100 + 100 := by
  have hsum : bookQtySum c5EndBook 0 = 0 := by
    unfold bookQtySum c5EndBook
    dsimp only
    rw [Function.update_same]
    rfl
  refine ⟨c5_first, c5_second, hsum, ?_⟩
  rw [hsum]
  norm_num [tradeSum]

/-- Claim C5, amended: for every completing sequence of valid submissions on
one instrument starting from a fresh book, the total resting quantity plus
twice the total Fill quantity equals the total submitted quantity — each
Fill's quantity is drained from both the incoming and the resting order. -/
theorem C5_conservation (t : Nat) (subs : List (Side × Int × Int)) (b : OrderBook)
    (fills : List Trade)
    (hq : ∀ s ∈ subs, 0 < s.2.1 ∧ s.2.1 < 2147483648)
    (hrun : runSubs t subs OrderBook.empty = some (b, fills)) :
    bookQtySum b t + 2 * tradeSum fills = (subs.map (fun s => s.2.1)).sum := by
  have h := runSubs_conserve t subs OrderBook.empty BookInv_empty hq b fills hrun
  rw [show bookQtySum OrderBook.empty t = 0 from rfl] at h
  omega

/-- Witness for the amended C5 theorem on a one-submission run. -/
theorem C5_conservation_witness :
    (∀ s ∈ [(Side.Buy, (5 : Int), (10 : Int))], 0 < s.2.1 ∧ s.2.1 < 2147483648) ∧
    bookQtySum c5WitBook 0 + 2 * tradeSum [] =
      (([(Side.Buy, (5 : Int), (10 : Int))]).map (fun s => s.2.1)).sum :=
  ⟨by decide, C5_conservation 0 [(Side.Buy, 5, 10)] c5WitBook [] (by decide) c5_wit_run⟩

/-- Claim C6: a Sell at 9 against a resting Buy at 10 satisfies the crossing
condition (10 ≥ 9), but instead of matching, `add_order` raises `TypeError`
in the Sell-side `min` — the Sell half of the crossing guarantee fails. -/
theorem C6_crossing_sell_raises :
    (c6Book.buy_orders 2).map (fun o => (o.price, o.quantity.get)) = [(10, 10)] ∧
    (9 : Int) ≤ 10 ∧
    add_order c6Book Side.Sell 2 4 9 = SubmitResult.raised c6Book := by
  refine ⟨?_, by norm_num, c6_run⟩
  rw [show c6Book.buy_orders 2 = [mkOrder Side.Buy 2 10 10] from rfl]
  norm_num [mkOrder, AtomicInteger.get, AtomicInteger.init, wrap32]

/-- Claim C7: when the matching phase completes, the incoming order is rested
into its own side's list exactly when its remaining quantity is positive
(and the same-side list is otherwise untouched); with an empty opposite side
the matching phase loops zero times, so the full quantity cell and zero
trades come back and the book is unchanged by the matching phase. -/
theorem C7_insert_iff_remaining (book : OrderBook) (s : Side) (t : Nat) (q p : Int)
    (b1 : OrderBook) (q1 : AtomicInteger) (ts : List Trade)
    (hm : match_orders book (mkOrder s t q p) = MatchResult.ok b1 q1 ts) :
    (0 < q1.get →
      sideList (add_order book s t q p).book s t =
        insert_order (sideList b1 s t) { mkOrder s t q p with quantity := q1 } ∧
      (add_order book s t q p).trades = ts) ∧
    (¬ 0 < q1.get →
      (add_order book s t q p).book = b1 ∧ (add_order book s t q p).trades = ts) ∧
    (sideList book s.opposite t = [] → ts = [] ∧ q1 = AtomicInteger.init q ∧ b1 = book) := by
  refine ⟨?_, ?_, ?_⟩
  · intro hq2
    rw [add_order_via_match, hm]
    dsimp only
    rw [if_pos hq2]
    cases s
    · dsimp only [sideList, SubmitResult.book, SubmitResult.trades]
      exact ⟨Function.update_same _ _ _, rfl⟩
    · dsimp only [sideList, SubmitResult.book, SubmitResult.trades]
      exact ⟨Function.update_same _ _ _, rfl⟩
  · intro hq2
    rw [add_order_via_match, hm]
    dsimp only
    rw [if_neg hq2]
    exact ⟨rfl, rfl⟩
  · intro hemp
    cases s
    · rw [match_orders_buy_eq] at hm
      dsimp only [Side.opposite, sideList] at hemp
      rw [hemp, mbl_nil] at hm
      dsimp only at hm
      injection hm with h1 h2 h3
      refine ⟨h3.symm, h2.symm, ?_⟩
      rw [← h1, ← hemp, Function.update_eq_self]
    · rw [match_orders_sell_eq] at hm
      dsimp only [Side.opposite, sideList] at hemp
      rw [hemp] at hm
      dsimp only at hm
      injection hm with h1 h2 h3
      exact ⟨h3.symm, h2.symm, h1.symm⟩

/-- Witness for the C7 theorem at a Buy submission against an empty book. -/
theorem C7_insert_iff_remaining_witness :
    ([] : List Trade) = [] ∧ AtomicInteger.init 5 = AtomicInteger.init 5 ∧
      c7WitBook = OrderBook.empty :=
  (C7_insert_iff_remaining OrderBook.empty Side.Buy 0 5 10 c7WitBook
    (AtomicInteger.init 5) [] c7_wit_match).2.2 rfl

/-- Claim C8: on every book reachable from a fresh book by valid submissions,
each per-ticker list is ordered best price first (descending prices for Buy,
ascending for Sell) and every resting order's remaining quantity is
strictly positive. -/
theorem C8_book_invariant (subs : List (Side × Nat × Int × Int))
    (hq : ∀ sub ∈ subs, 0 < sub.2.2.1 ∧ sub.2.2.1 < 2147483648) (t : Nat) :
    sortedSide Side.Buy ((runBook subs).buy_orders t) ∧
    sortedSide Side.Sell ((runBook subs).sell_orders t) ∧
    (∀ o ∈ (runBook subs).buy_orders t, 0 < o.quantity.get) ∧
    (∀ o ∈ (runBook subs).sell_orders t, 0 < o.quantity.get) := by
  have h := runBook_inv subs OrderBook.empty BookInv_empty hq t
  exact ⟨h.1, h.2.1, fun o ho => (h.2.2.1 o ho).1, fun o ho => (h.2.2.2 o ho).1⟩

/-- Witness for the C8 theorem on a one-submission run. -/
theorem C8_book_invariant_witness :
    (∀ sub ∈ [(Side.Buy, 0, (10 : Int), (10 : Int))],
      0 < sub.2.2.1 ∧ sub.2.2.1 < 2147483648) ∧
    (sortedSide Side.Buy ((runBook [(Side.Buy, 0, 10, 10)]).buy_orders 0) ∧
      sortedSide Side.Sell ((runBook [(Side.Buy, 0, 10, 10)]).sell_orders 0) ∧
      (∀ o ∈ (runBook [(Side.Buy, 0, 10, 10)]).buy_orders 0, 0 < o.quantity.get) ∧
      (∀ o ∈ (runBook [(Side.Buy, 0, 10, 10)]).sell_orders 0, 0 < o.quantity.get)) :=
  ⟨by decide, C8_book_invariant [(Side.Buy, 0, 10, 10)] (by decide) 0⟩

/-- Claim C9 counterexample: a zero-quantity Buy at 11 against a resting Sell
at 10 is not rejected — it returns one (zero-quantity) Fill record, refuting
that zero-quantity submissions emit no Fill. -/
theorem C9_counterexample :
    (add_order c9Book Side.Buy 0 0 11).trades = [(11, 0, 0)] ∧
    ([((11 : Int), (0 : Int), (0 : Nat))] : List Trade) ≠ [] :=
  ⟨c9_run, by decide⟩

/-- Claim C9, amended: zero-quantity submissions are not rejected; they leave
the whole book unchanged and mutate no resting quantity, but a zero-quantity
Buy returns one zero-quantity Fill when the best resting Sell crosses (and
none otherwise), while a zero-quantity Sell returns no Fill (raising when
the best resting Buy crosses). -/
theorem C9_zero_quantity (b : OrderBook) (t : Nat) (p : Int)
    (hs : ∀ o ∈ b.sell_orders t, 0 < o.quantity.value ∧ o.quantity.value < 2147483648) :
    (add_order b Side.Buy t 0 p).book = b ∧
    (add_order b Side.Buy t 0 p).trades = zeroTrades p t (b.sell_orders t) ∧
    (add_order b Side.Sell t 0 p).book = b ∧
    (add_order b Side.Sell t 0 p).trades = [] := by
  have hb := add_order_zero_buy b t p hs
  have hsell := add_order_zero_sell b t p
  rw [hb]
  exact ⟨rfl, rfl, hsell.1, hsell.2⟩

/-- Witness for the amended C9 theorem at the concrete crossing book. -/
theorem C9_zero_quantity_witness :
    (∀ o ∈ c9Book.sell_orders 0, 0 < o.quantity.value ∧ o.quantity.value < 2147483648) ∧
    ((add_order c9Book Side.Buy 0 0 11).book = c9Book ∧
      (add_order c9Book Side.Buy 0 0 11).trades = zeroTrades 11 0 (c9Book.sell_orders 0) ∧
      (add_order c9Book Side.Sell 0 0 11).book = c9Book ∧
      (add_order c9Book Side.Sell 0 0 11).trades = []) :=
  ⟨c9_sell_range, C9_zero_quantity c9Book 0 11 c9_sell_range⟩

/-- Claim C10: a submission at ticker `t` leaves the Buy and Sell resting
lists of every other ticker unchanged, whether it completes or raises. -/
theorem C10_frame (b : OrderBook) (s : Side) (t : Nat) (q p : Int) (u : Nat) (hu : u ≠ t) :
    (add_order b s t q p).book.buy_orders u = b.buy_orders u ∧
    (add_order b s t q p).book.sell_orders u = b.sell_orders u := by
  cases s
  · rw [add_order_buy_eq]
    by_cases hpos : 0 < (match_buy_loop p t (AtomicInteger.init q) (b.sell_orders t) []).1.value
    · rw [if_pos hpos]
      exact ⟨Function.update_noteq hu _ _, Function.update_noteq hu _ _⟩
    · rw [if_neg hpos]
      exact ⟨rfl, Function.update_noteq hu _ _⟩
  · rw [add_order_sell_eq]
    rcases hl : b.buy_orders t with _ | ⟨best, tl⟩ <;> dsimp only
    · by_cases h0 : 0 < (AtomicInteger.init q).value
      · rw [if_pos h0]
        exact ⟨rfl, Function.update_noteq hu _ _⟩
      · rw [if_neg h0]
        exact ⟨rfl, rfl⟩
    · by_cases hcr : p ≤ best.price
      · rw [if_pos hcr]
        exact ⟨rfl, rfl⟩
      · rw [if_neg hcr]
        by_cases h0 : 0 < (AtomicInteger.init q).value
        · rw [if_pos h0]
          exact ⟨rfl, Function.update_noteq hu _ _⟩
        · rw [if_neg h0]
          exact ⟨rfl, rfl⟩

/-- Witness for the C10 frame theorem at a concrete submission. -/
theorem C10_frame_witness :
    ((1 : Nat) ≠ 0) ∧
    ((add_order OrderBook.empty Side.Buy 0 5 10).book.buy_orders 1 =
        OrderBook.empty.buy_orders 1 ∧
      (add_order OrderBook.empty Side.Buy 0 5 10).book.sell_orders 1 =
        OrderBook.empty.sell_orders 1) :=
  ⟨by decide, C10_frame OrderBook.empty Side.Buy 0 5 10 1 (by decide)⟩

end StockTrading
